import Mathlib

/-
Verification of the rdr-latency MachineConfig generator.

The development shallowly embeds the two cooperating modules
`rdrlatency/machineconfig.py` and `rdrlatency/rdr.py`.  Python strings are
modelled as Lean `String` (a wrapper around `List Char`); the handful of
Python string/path primitives the code relies on (`str.startswith`,
`str.split`, `str.replace`, `in`, `os.path.normpath`, `os.path.join`,
`base64.b64encode`, `str.encode`) are re-implemented below, structurally
recursive so that every definition evaluates inside the kernel.
-/

set_option maxRecDepth 40000

/-- Python `pat in s` (substring membership), on character lists:
true when `pat` occurs contiguously in `s`. -/
def containsList (pat : List Char) : List Char → Bool
  | [] => pat.isEmpty
  | c :: rest => pat.isPrefixOf (c :: rest) || containsList pat rest

/-- Python `pat in s` for strings. -/
def containsStr (pat s : String) : Bool := containsList pat.toList s.toList

/-- Python `s.startswith(pre)`. -/
def startsWithS (pre s : String) : Bool := pre.toList.isPrefixOf s.toList

/-- Python `s.endswith(suf)`. -/
def endsWithS (suf s : String) : Bool := suf.toList.isSuffixOf s.toList

/-- Worker for `replaceList`.  In state `k+1` the machine is still skipping
over the `pat.length` characters of a match that was just replaced; in state
`0` it looks for the next match.  This models the left-to-right,
non-overlapping scan of Python `s.replace(pat, rep)` (for non-empty `pat`). -/
def replAux (pat rep : List Char) : Nat → List Char → List Char
  | _, [] => []
  | 0, c :: rest =>
    if pat ≠ [] ∧ pat.isPrefixOf (c :: rest) then
      rep ++ replAux pat rep (pat.length - 1) rest
    else
      c :: replAux pat rep 0 rest
  | k + 1, _ :: rest => replAux pat rep k rest

/-- Python `s.replace(pat, rep)` on character lists (non-empty `pat`;
with the guard in `replAux` an empty `pat` yields the identity). -/
def replaceList (pat rep s : List Char) : List Char := replAux pat rep 0 s

/-- Python `s.replace(pat, rep)` for strings. -/
def pyReplace (s pat rep : String) : String :=
  String.mk (replaceList pat.toList rep.toList s.toList)

/-- The decimal digit characters used by Python `str(int)`.
Only arguments `0..9` arise; the catch-all is never reached. -/
def digitChar : Nat → Char
  | 0 => '0' | 1 => '1' | 2 => '2' | 3 => '3' | 4 => '4'
  | 5 => '5' | 6 => '6' | 7 => '7' | 8 => '8' | 9 => '9'
  | _ => '*'

/-- Fuelled most-significant-first decimal digit expansion; fuel `n` is
always sufficient since the argument shrinks by a factor of ten. -/
def natDigitsAux : Nat → Nat → List Char
  | 0, n => [digitChar n]
  | fuel + 1, n =>
    if n < 10 then [digitChar n]
    else natDigitsAux fuel (n / 10) ++ [digitChar (n % 10)]

/-- Decimal digits of a natural number, most significant first. -/
def natDigits (n : Nat) : List Char := natDigitsAux n n

/-- Python `str(i)` for an integer `i`. -/
def pyStrInt (i : Int) : String :=
  if i < 0 then String.mk ('-' :: natDigits i.natAbs)
  else String.mk (natDigits i.natAbs)

/-- UTF-8 encoding of one Unicode code point, as byte values. -/
def utf8Encode (n : Nat) : List Nat :=
  if n < 128 then [n]
  else if n < 2048 then [192 + n / 64, 128 + n % 64]
  else if n < 65536 then
    [224 + n / 4096, 128 + (n / 64) % 64, 128 + n % 64]
  else
    [240 + n / 262144, 128 + (n / 4096) % 64, 128 + (n / 64) % 64, 128 + n % 64]

/-- Python `s.encode()`: the UTF-8 bytes of a string. -/
def utf8Bytes (s : String) : List Nat :=
  s.toList.flatMap (fun c => utf8Encode c.toNat)

/-- The base64 alphabet (RFC 4648, as used by `base64.b64encode`). -/
def b64Alphabet : List Char :=
  "ABCDEFGHIJKLMNOPQRSTUVWXYZabcdefghijklmnopqrstuvwxyz0123456789+/".toList

/-- Character for one six-bit group. -/
def b64Chr (i : Nat) : Char := b64Alphabet.getD i '?'

/-- Index of a base64 character in the alphabet (64 for `=` / unknown). -/
def b64Val (c : Char) : Nat := (b64Alphabet.indexOf c)

/-- `base64.b64encode` on a byte list, producing the base64 characters with
`=` padding. -/
def b64EncodeBytes : List Nat → List Char
  | [] => []
  | [a] => [b64Chr (a / 4), b64Chr (a % 4 * 16), '=', '=']
  | [a, b] => [b64Chr (a / 4), b64Chr (a % 4 * 16 + b / 16), b64Chr (b % 16 * 4), '=']
  | a :: b :: c :: rest =>
    b64Chr (a / 4) :: b64Chr (a % 4 * 16 + b / 16) ::
      b64Chr (b % 16 * 4 + c / 64) :: b64Chr (c % 64) :: b64EncodeBytes rest

/-- Base64 decoding back to the byte list (inverse of `b64EncodeBytes`). -/
def b64DecodeChars : List Char → List Nat
  | c0 :: c1 :: c2 :: c3 :: rest =>
    let a := b64Val c0
    let b := b64Val c1
    if c2 = '=' then [a * 4 + b / 16]
    else
      let c := b64Val c2
      if c3 = '=' then [a * 4 + b / 16, b % 16 * 16 + c / 4]
      else (a * 4 + b / 16) :: (b % 16 * 16 + c / 4) :: (c % 4 * 64 + b64Val c3) ::
        b64DecodeChars rest
  | _ => []

/-- `base64.b64encode(s.encode()).decode()` for a string `s`. -/
def b64EncodeStr (s : String) : String := String.mk (b64EncodeBytes (utf8Bytes s))

/-- Python `path.split("/")`: worker carrying the current component,
reversed. -/
def splitSlashAux : List Char → List Char → List String
  | [], acc => [String.mk acc.reverse]
  | c :: rest, acc =>
    if c = '/' then String.mk acc.reverse :: splitSlashAux rest []
    else splitSlashAux rest (c :: acc)

/-- Python `path.split("/")`. -/
def splitSlash (s : String) : List String := splitSlashAux s.toList []

/-- Python `"/".join(comps)`. -/
def joinSlash : List String → String
  | [] => ""
  | [x] => x
  | x :: y :: rest => x ++ "/" ++ joinSlash (y :: rest)

/-- One step of the component scan of CPython `posixpath.normpath`:
drop empty and `.` components, resolve `..` against the accumulator. -/
def normStep (initialSlashes : Nat) (acc : List String) (comp : String) : List String :=
  if comp = "" ∨ comp = "." then acc
  else if comp ≠ ".." ∨ (initialSlashes = 0 ∧ acc = []) ∨ acc.getLast? = some ".." then
    acc ++ [comp]
  else if acc ≠ [] then acc.dropLast
  else acc

/-- CPython `posixpath.normpath` (as called by `os.path.normpath` on POSIX):
collapses repeated separators, `.` and `..` components, preserving the
special two-leading-slash form. -/
def normpath (path : String) : String :=
  if path = "" then "."
  else
    let initialSlashes : Nat :=
      if startsWithS "/" path then
        if startsWithS "//" path ∧ ¬ startsWithS "///" path then 2 else 1
      else 0
    let comps := (splitSlash path).foldl (normStep initialSlashes) []
    let joined := joinSlash comps
    let out :=
      (if initialSlashes = 2 then "//" else if initialSlashes = 1 then "/" else "")
        ++ joined
    if out = "" then "." else out

/-- CPython `posixpath.join(a, b)` for two arguments: an absolute second
argument replaces the first; otherwise a separator is inserted unless one is
already present. -/
def pyJoin (a b : String) : String :=
  if startsWithS "/" b then b
  else if a = "" ∨ endsWithS "/" a then a ++ b
  else a ++ "/" ++ b

/-- Ignition `storage.files` entry, flattened from `FILE_SKEL` in
`machineconfig.py`: `source` stands for the nested `contents.source` key,
`user_name` / `group_name` for `user.name` / `group.name`.  The skeleton's
YAML literal `0444` is octal, hence the default `mode` 292. -/
structure FileDict where
  path : String
  source : String
  mode : Nat
  user_name : String
  group_name : String
deriving DecidableEq, Repr

/-- Ignition `systemd.units` entry, from `UNIT_SKEL` in `machineconfig.py`. -/
structure UnitDict where
  name : String
  enabled : Bool
  contents : String
deriving DecidableEq, Repr

/-- MachineConfig document, flattened from `MACHINECONFIG_SKELL`:
`name` is `metadata.name`, `role_label` the value of the
`machineconfiguration.openshift.io/role` label, `ignition_version`
`spec.config.ignition.version`, `files` `spec.config.storage.files` and
`units` `spec.config.systemd.units`. -/
structure MachineConfig where
  apiVersion : String
  kind : String
  name : String
  role_label : String
  ignition_version : String
  files : List FileDict
  units : List UnitDict
deriving DecidableEq, Repr

/-- `Except.isOk` spelled out (ok when construction raised no exception). -/
def exceptOk {ε α : Type} : Except ε α → Bool
  | Except.ok _ => true
  | Except.error _ => false

/-- The rfc2397 data-URL scheme string prepended to file contents
(`source_prefix` in `create_file_dict`). -/
def dataUriHead : String := "data:text/plain;charset=utf-8;base64,"

/-- `machineconfig.create_file_dict(basename, content, target_dir)`.
Raising `ValueError` is modelled as `Except.error` carrying the message.
The Python default for `target_dir` is `"/etc"`; call sites pass it
explicitly here. -/
def create_file_dict (basename content target_dir : String) : Except String FileDict :=
  if basename = "" then Except.error "basename should not be empty"
  else if ¬ startsWithS "/" target_dir then
    Except.error
      ("target_dir \x27" ++ target_dir ++ "\x27 shouldn\x27t be relative, use abs. path")
  else
    let target_dir := normpath target_dir
    if ¬ (startsWithS "/etc" target_dir || startsWithS "/var" target_dir) then
      Except.error
        ("target_dir \x27" ++ target_dir ++ "\x27 should not be outside of /etc or /var")
    else
      Except.ok
        { path := pyJoin target_dir basename
          source := dataUriHead ++ b64EncodeStr content
          mode := 292
          user_name := "root"
          group_name := "root" }

/-- `machineconfig.create_unit_dict(name, content)`. -/
def create_unit_dict (name content : String) : Except String UnitDict :=
  if name = "" then Except.error "name of the unit should not be empty"
  else Except.ok { name := name, enabled := true, contents := content }

/-- `machineconfig.get_new_mc(role, name_suffix, priority=99)`; the Python
default priority 99 is passed explicitly by the one caller. -/
def get_new_mc (role name_suffix : String) (priority : Int) : MachineConfig :=
  { apiVersion := "machineconfiguration.openshift.io/v1"
    kind := "MachineConfig"
    name := pyStrInt priority ++ "-" ++ role ++ "-" ++ name_suffix
    role_label := role
    ignition_version := "3.1.0"
    files := []
    units := [] }

/-- `machineconfig.create_systemdunit_dict(unit_filename)`.  The on-disk read
of the bundled unit file is I/O; the file's text is passed in as
`template`. -/
def create_systemdunit_dict (unit_filename template : String) : Except String UnitDict :=
  create_unit_dict unit_filename template

/-- Fuelled bit length of a natural number (`int.bit_length()`); fuel `n`
is always sufficient since the argument halves each step. -/
def bitLenAux : Nat → Nat → Nat
  | 0, _ => 0
  | fuel + 1, n => if n = 0 then 0 else bitLenAux fuel (n / 2) + 1

/-- Bit length of a natural number: 0 for 0, otherwise `⌊log2 n⌋ + 1`. -/
def bitLen (n : Nat) : Nat := bitLenAux n n

/-- `a / b` rounded to the nearest integer, ties to even — the IEEE-754
default rounding used by CPython's correctly rounded int/int true
division. -/
def roundHalfEvenDiv (a b : Nat) : Nat :=
  let q := a / b
  let r := a % b
  if 2 * r < b then q
  else if b < 2 * r then q + 1
  else if q % 2 = 0 then q else q + 1

/-- `int(m / 2)` of CPython for a natural `m`: the true division returns the
exact quotient `m/2` correctly rounded to a double (53-bit significand,
round to nearest, ties to even) and `int()` truncates toward zero.  For
`m < 2^53` the quotient is exactly representable (a half-integer below
`2^52`), so the result is plain `m / 2`; above that bound the quotient lies
in a binade with unit-in-the-last-place `2^t`, `t = bitLen m - 54 ≥ 0`, and
the rounded value is already an integer. -/
def pyHalfNat (m : Nat) : Nat :=
  if m < 2 ^ 53 then m / 2
  else
    let t := bitLen m - 54
    2 ^ t * roundHalfEvenDiv m (2 ^ (t + 1))

/-- `rdr.create_latency_mc_dict`, lines 31-32: `temp = latency / 2;
latency = int(temp)`, with CPython's float semantics: the correctly rounded
double quotient, truncated toward zero (rounding and truncation are both
symmetric in the sign).  Faithful for quotients within the finite double
range (the program raises `OverflowError` near `2^1025`, far beyond any
latency). -/
def effectiveDelay (latency : Int) : Int :=
  if latency < 0 then -(Int.ofNat (pyHalfNat latency.natAbs))
  else Int.ofNat (pyHalfNat latency.natAbs)

/-- The `network_latency` f-string of `rdr.create_latency_mc_dict` up to and
including `declare -a ip_list=(`; `{ip_list}` is interpolated right after
this piece.  Doubled braces of the f-string are single braces here. -/
def scriptHead : String :=
  "#!/bin/bash\n# Copyright 2021 Martin Bukatovič <mbukatov@redhat.com>\n#\n" ++
  "# Licensed under the Apache License, Version 2.0 (the \"License\");\n" ++
  "# you may not use this file except in compliance with the License.\n" ++
  "# You may obtain a copy of the License at\n#\n" ++
  "#     http://www.apache.org/licenses/LICENSE-2.0\n#\n" ++
  "# Unless required by applicable law or agreed to in writing, software\n" ++
  "# distributed under the License is distributed on an \"AS IS\" BASIS,\n" ++
  "# WITHOUT WARRANTIES OR CONDITIONS OF ANY KIND, either express or implied.\n" ++
  "# See the License for the specific language governing permissions and\n" ++
  "# limitations under the License.\n\n\n" ++
  "if [[ $# = 0 ]]; then\n  show_help\n  exit\nfi\n\n" ++
  "# debug mode\nif [[ $1 = \"-d\" ]]; then\n  # shellcheck disable=SC2209\n" ++
  "  DEBUG_MODE=echo\n  shift\nelse\n  unset DEBUG_MODE\nfi\n\n" ++
  "# integer with egress latency is the only argument of the script\n" ++
  "case $1 in\n  help|-h)   show_help; exit;;\n" ++
  "  [0-9]*)    latency=$1; shift;;\n  *)         show_help; exit 1\nesac\n\n\n" ++
  "# locate main network interface (assuming all nodes are on a single network)\n" ++
  "iface=$(ip route show default | cut -d\x27 \x27 -f5)\n\n" ++
  "# TODO: polish this to create as few changes in traffic queues as possible,\n" ++
  "# so that the original configuration could be restored without node reboot\n" ++
  "$DEBUG_MODE tc qdisc del dev \"$\x7biface\x7d\" root\n" ++
  "$DEBUG_MODE tc qdisc add dev \"$\x7biface\x7d\" root handle 1: prio\n" ++
  "$DEBUG_MODE tc qdisc add dev \"$\x7biface\x7d\" parent 1:1 handle 2: netem delay \"$\x7blatency\x7d\"ms\n\n" ++
  "# create tc filter/classifier for nodes in other zones, and direct traffic\n" ++
  "# heading to them via netem qdisc\ndeclare -a ip_list=("

/-- The `network_latency` f-string after the `{ip_list}` interpolation point,
up to the closing `\"\"\"` (including the final newlines and the four spaces
of indentation before the closing quotes). -/
def scriptTail : String :=
  ")\n\n\nfor ip_adddr in \"$\x7bip_list[@]\x7d\"; do\n" ++
  "    $DEBUG_MODE tc filter add dev \"$\x7biface\x7d\" parent 1: protocol ip prio 2 " ++
  "u32 match ip dst $ip_adddr/32 flowid 3:1\ndone\n\n    "

/-- The full shaping-script text created by `rdr.create_latency_mc_dict` for
a given `ip_list` string (the f-string with `{ip_list}` substituted). -/
def networkLatencyScript (ip_list : String) : String :=
  scriptHead ++ ip_list ++ scriptTail

/-- The systemd unit template substitution performed on lines 105-108 of
`rdr.py`: hardcode the latency, then strip the EnvironmentFile directive. -/
def substituteUnit (template : String) (latency : Int) : String :=
  pyReplace (pyReplace template "LATENCY_VALUE" (pyStrInt latency))
    "EnvironmentFile=/etc/network-split.env" ""

/-- `rdr.create_latency_mc_dict(role, latency, ip_list)`.  The bundled asset
`systemd/network-latency.service` is read from disk by
`create_systemdunit_dict`; its text is the `unit_template` parameter.
`ip_list` is the string interpolated into the script's shell array (the
caller passes the output of `get_ip_address`). -/
def create_latency_mc_dict (role : String) (latency : Int)
    (ip_list unit_template : String) : Except String MachineConfig := do
  let latency := effectiveDelay latency
  let mcd := get_new_mc role "network-latency" 99
  let file_dict ← create_file_dict "sch_netem.conf" "sch_netem" "/etc/modules-load.d"
  let mcd := { mcd with files := mcd.files ++ [file_dict] }
  let script_dict ← create_file_dict "network-latency.sh"
    (networkLatencyScript ip_list) "/etc"
  let mcd := { mcd with files := mcd.files ++ [script_dict] }
  let mcd := { mcd with
    files := mcd.files.set 1 { script_dict with mode := 356 } }
  let unit_dict ← create_systemdunit_dict "network-latency.service" unit_template
  let unit_dict := { unit_dict with
    contents := substituteUnit unit_dict.contents latency }
  let mcd := { mcd with units := mcd.units ++ [unit_dict] }
  return mcd

/-- Modelled from the spec: the bundled asset `systemd/network-latency.service`
is not among the sources; per the spec it is "the shaping-service-unit
template (containing a delay placeholder token and an environment-file
directive line to be stripped)".  A representative such unit text. -/
def networkLatencyServiceTemplate : String :=
  "[Unit]\nDescription=Create network latency between zones\n" ++
  "After=network-online.target\n\n[Service]\nType=oneshot\n" ++
  "EnvironmentFile=/etc/network-split.env\n" ++
  "ExecStart=/etc/network-latency.sh LATENCY_VALUE\n\n" ++
  "[Install]\nWantedBy=multi-user.target\n"

/-- One entry of `.status.addresses` of a node, as consumed by
`rdr.get_ip_address` after YAML parsing. -/
structure NodeAddress where
  type : String
  address : String
deriving DecidableEq, Repr

/-- One entry of `.items` of the node list document. -/
structure NodeItem where
  addresses : List NodeAddress
deriving DecidableEq, Repr

/-- The parsed `oc get nodes -o yaml` document. -/
structure NodeDoc where
  items : List NodeItem
deriving DecidableEq, Repr

/-- `rdr.get_ip_address`, from the parsed node document onward (the `oc`
invocation itself is I/O).  Note the Python membership test
`addr_d["type"] not in ("ExternalIP")` is a substring test against the
string `"ExternalIP"`, not membership in a one-element tuple. -/
def get_ip_address (node_dict : NodeDoc) : String :=
  node_dict.items.foldl
    (fun ip_addrs i =>
      i.addresses.foldl
        (fun ip_addrs addr_d =>
          if containsStr addr_d.type "ExternalIP" then
            ip_addrs ++ "\x27" ++ addr_d.address ++ "\x27 "
          else ip_addrs)
        ip_addrs)
    ""

/-- Concatenation of a list of strings (no separator). -/
def joinAll : List String → String
  | [] => ""
  | x :: xs => x ++ joinAll xs

/-- The quoted-address chunk appended by `get_ip_address` for one accepted
address. -/
def quotedAddr (a : NodeAddress) : String := "\x27" ++ a.address ++ "\x27 "

/-- The acceptance test of `get_ip_address`: the Python expression
`addr_d["type"] in ("ExternalIP")`, a substring test. -/
def addrAccepted (a : NodeAddress) : Bool := containsStr a.type "ExternalIP"

/-- Reading of the spec phrase "lies inside one of the two permitted roots
`/etc` or `/var`": the path is one of the two roots, or strictly below one of
them.  (Stated from the spec's words, for comparison with what the code
enforces.) -/
def specInsideRoots (p : String) : Bool :=
  p = "/etc" || p = "/var" || startsWithS "/etc/" p || startsWithS "/var/" p

/-- The peer-IP string for the representative invocation, shaped like the
output of `get_ip_address` for peers 10.0.0.1 and 10.0.0.2. -/
def c2IpList : String := "\x2710.0.0.1\x27 \x2710.0.0.2\x27 "

/-- The bundle of the representative invocation
`create_latency_mc_dict("worker", 40, ...)`. -/
def c2Bundle : Except String MachineConfig :=
  create_latency_mc_dict "worker" 40 c2IpList networkLatencyServiceTemplate

/-- An adversarial service-unit template: removing its single occurrence of
the EnvironmentFile directive splices the surrounding text into a new
occurrence of the placeholder token. -/
def c7BadTemplate : String :=
  "LATENCY" ++ "EnvironmentFile=/etc/network-split.env" ++ "_VALUE"

/-
Lemmas about the Python `str.replace` model.  `replaceList pat rep s` scans
left to right; the results below show that when the characters of `rep` are
disjoint from those of `pat` (and both are non-empty), no occurrence of
`pat` survives the scan, and that occurrences of an unrelated word `q` with
characters disjoint from `rep` cannot be created by the scan.
-/

theorem replAux_skip (pat rep : List Char) :
    ∀ (s : List Char) (k : Nat), replAux pat rep k s = replAux pat rep 0 (s.drop k) := by
  intro s
  induction s with
  | nil => intro k; cases k <;> rfl
  | cons c rest ih =>
    intro k
    cases k with
    | zero => rfl
    | succ k => simpa [replAux] using ih k

theorem replaceList_cons_pos (pat rep : List Char) (c : Char) (rest : List Char)
    (h1 : pat ≠ []) (h2 : pat.isPrefixOf (c :: rest) = true) :
    replaceList pat rep (c :: rest) =
      rep ++ replaceList pat rep ((c :: rest).drop pat.length) := by
  cases pat with
  | nil => exact absurd rfl h1
  | cons p pt =>
    show replAux (p :: pt) rep 0 (c :: rest) = _
    rw [replAux, if_pos ⟨h1, h2⟩, replAux_skip]
    rfl

theorem replaceList_cons_neg (pat rep : List Char) (c : Char) (rest : List Char)
    (h2 : pat.isPrefixOf (c :: rest) = false) :
    replaceList pat rep (c :: rest) = c :: replaceList pat rep rest := by
  show replAux pat rep 0 (c :: rest) = _
  rw [replAux, if_neg]
  · rfl
  · rintro ⟨-, hpre⟩
    rw [h2] at hpre
    exact Bool.false_ne_true hpre

theorem containsList_nil_of_ne (pat : List Char) (hpat : pat ≠ []) :
    containsList pat [] = false := by
  cases pat with
  | nil => exact absurd rfl hpat
  | cons p pt => rfl

theorem containsList_of_isPrefixOf (pat s : List Char)
    (h : pat.isPrefixOf s = true) : containsList pat s = true := by
  cases s with
  | nil =>
    cases pat with
    | nil => rfl
    | cons p pt => simp [List.isPrefixOf] at h
  | cons c rest => simp [containsList, h]

theorem containsList_append_of_disjoint (pat r R : List Char)
    (hpat : pat ≠ []) (hr : ∀ c ∈ r, c ∉ pat)
    (hR : containsList pat R = false) :
    containsList pat (r ++ R) = false := by
  induction r with
  | nil => simpa using hR
  | cons c r' ih =>
    have hc : c ∉ pat := hr c (by simp)
    have htail : containsList pat (r' ++ R) = false :=
      ih (fun x hx => hr x (by simp [hx]))
    cases pat with
    | nil => exact absurd rfl hpat
    | cons p pt =>
      have hpc : (p == c) = false := by
        rw [beq_eq_false_iff_ne]
        rintro rfl
        exact hc (by simp)
      simp [containsList, List.isPrefixOf, hpc, htail]

theorem containsList_drop (q : List Char) :
    ∀ (s : List Char) (k : Nat), containsList q s = false →
      containsList q (s.drop k) = false := by
  intro s
  induction s with
  | nil => intro k h; simpa using h
  | cons c rest ih =>
    intro k h
    cases k with
    | zero => exact h
    | succ k =>
      have h' := h
      simp only [containsList, Bool.or_eq_false_iff] at h'
      exact ih k h'.2

theorem isPrefixOf_replaceList (pat rep : List Char) (hrep : rep ≠ []) :
    ∀ (s t : List Char), (∀ c ∈ t, c ∉ rep) → pat.isPrefixOf s = false →
      t.isPrefixOf (replaceList pat rep s) = true → t.isPrefixOf s = true := by
  intro s
  induction s with
  | nil => intro t _ _ ht; exact ht
  | cons c rest ih =>
    intro t hdisj hps ht
    rw [replaceList_cons_neg pat rep c rest hps] at ht
    cases t with
    | nil => rfl
    | cons d t2 =>
      simp only [List.isPrefixOf] at ht
      rcases Bool.and_eq_true_iff.mp ht with ⟨hdc, h2⟩
      have hdceq : d = c := beq_iff_eq.mp hdc
      by_cases hp : pat.isPrefixOf rest = true
      · -- `rest` itself starts a match, so the tail of the output starts
        -- with `rep`; a nonempty `t2` would have to start with a character
        -- of `rep`, which the disjointness hypothesis rules out.
        cases t2 with
        | nil => simp [List.isPrefixOf, hdc]
        | cons e t3 =>
          exfalso
          have hpatne : pat ≠ [] := by
            rintro rfl
            simp [List.isPrefixOf] at hps
          cases rest with
          | nil =>
            cases pat with
            | nil => exact hpatne rfl
            | cons p pt => simp [List.isPrefixOf] at hp
          | cons x xs =>
            rw [replaceList_cons_pos pat rep x xs hpatne hp] at h2
            cases hrep' : rep with
            | nil => exact hrep hrep'
            | cons r0 rr =>
              rw [hrep'] at h2
              simp only [List.cons_append, List.isPrefixOf] at h2
              rcases Bool.and_eq_true_iff.mp h2 with ⟨her, -⟩
              have : e = r0 := beq_iff_eq.mp her
              subst this
              exact hdisj e (by simp) (by simp [hrep'])
      · have hpf : pat.isPrefixOf rest = false := by
          revert hp; cases pat.isPrefixOf rest <;> simp
        have := ih t2 (fun x hx => hdisj x (by simp [hx])) hpf h2
        simp [List.isPrefixOf, hdc, this]

theorem replaceList_no_occur (pat rep : List Char) (hpat : pat ≠ [])
    (hrep : rep ≠ []) (hdisj : ∀ c ∈ rep, c ∉ pat) :
    ∀ s, containsList pat (replaceList pat rep s) = false := by
  have key : ∀ (n : Nat) (s : List Char), s.length ≤ n →
      containsList pat (replaceList pat rep s) = false := by
    intro n
    induction n with
    | zero =>
      intro s hs
      have : s = [] := List.length_eq_zero.mp (Nat.le_zero.mp hs)
      subst this
      exact containsList_nil_of_ne pat hpat
    | succ n ih =>
      intro s hs
      cases s with
      | nil => exact containsList_nil_of_ne pat hpat
      | cons c rest =>
        by_cases hp : pat.isPrefixOf (c :: rest) = true
        · rw [replaceList_cons_pos pat rep c rest hpat hp]
          apply containsList_append_of_disjoint pat rep _ hpat hdisj
          apply ih
          have h1 : 1 ≤ pat.length := by
            cases pat with
            | nil => exact absurd rfl hpat
            | cons p pt => simp
          simp only [List.length_drop, List.length_cons]
          simp only [List.length_cons] at hs
          omega
        · have hpf : pat.isPrefixOf (c :: rest) = false := by
            revert hp; cases pat.isPrefixOf (c :: rest) <;> simp
          rw [replaceList_cons_neg pat rep c rest hpf]
          have htail : containsList pat (replaceList pat rep rest) = false := by
            apply ih
            simp only [List.length_cons] at hs
            omega
          have hhead : pat.isPrefixOf (c :: replaceList pat rep rest) = false := by
            by_contra hcon
            have hcon' : pat.isPrefixOf (c :: replaceList pat rep rest) = true := by
              revert hcon; cases pat.isPrefixOf (c :: replaceList pat rep rest) <;> simp
            have : pat.isPrefixOf (c :: rest) = true := by
              have := isPrefixOf_replaceList pat rep hrep (c :: rest) pat
                (fun x hx hxr => hdisj x hxr hx) hpf
              apply this
              rw [replaceList_cons_neg pat rep c rest hpf]
              exact hcon'
            rw [hpf] at this
            exact Bool.false_ne_true this
          cases pat with
          | nil => exact absurd rfl hpat
          | cons p pt => simp [containsList, hhead, htail]
  exact fun s => key s.length s (Nat.le_refl _)

theorem replaceList_preserves_no_occur (pat rep q : List Char) (hpat : pat ≠ [])
    (hq : q ≠ []) (hrep : rep ≠ []) (hdisj : ∀ c ∈ rep, c ∉ q) :
    ∀ s, containsList q s = false →
      containsList q (replaceList pat rep s) = false := by
  have key : ∀ (n : Nat) (s : List Char), s.length ≤ n → containsList q s = false →
      containsList q (replaceList pat rep s) = false := by
    intro n
    induction n with
    | zero =>
      intro s hs _
      have : s = [] := List.length_eq_zero.mp (Nat.le_zero.mp hs)
      subst this
      exact containsList_nil_of_ne q hq
    | succ n ih =>
      intro s hs hnocc
      cases s with
      | nil => exact containsList_nil_of_ne q hq
      | cons c rest =>
        have hparts : q.isPrefixOf (c :: rest) = false ∧ containsList q rest = false := by
          simpa only [containsList, Bool.or_eq_false_iff] using hnocc
        by_cases hp : pat.isPrefixOf (c :: rest) = true
        · rw [replaceList_cons_pos pat rep c rest hpat hp]
          apply containsList_append_of_disjoint q rep _ hq hdisj
          apply ih
          · have h1 : 1 ≤ pat.length := by
              cases pat with
              | nil => exact absurd rfl hpat
              | cons p pt => simp
            simp only [List.length_drop, List.length_cons]
            simp only [List.length_cons] at hs
            omega
          · exact containsList_drop q (c :: rest) pat.length hnocc
        · have hpf : pat.isPrefixOf (c :: rest) = false := by
            revert hp; cases pat.isPrefixOf (c :: rest) <;> simp
          rw [replaceList_cons_neg pat rep c rest hpf]
          have htail : containsList q (replaceList pat rep rest) = false := by
            apply ih
            · simp only [List.length_cons] at hs; omega
            · exact hparts.2
          have hhead : q.isPrefixOf (c :: replaceList pat rep rest) = false := by
            by_contra hcon
            have hcon' : q.isPrefixOf (c :: replaceList pat rep rest) = true := by
              revert hcon; cases q.isPrefixOf (c :: replaceList pat rep rest) <;> simp
            have : q.isPrefixOf (c :: rest) = true := by
              have := isPrefixOf_replaceList pat rep hrep (c :: rest) q
                (fun x hx hxr => hdisj x hxr hx) hpf
              apply this
              rw [replaceList_cons_neg pat rep c rest hpf]
              exact hcon'
            rw [hparts.1] at this
            exact Bool.false_ne_true this
          cases q with
          | nil => exact absurd rfl hq
          | cons p pt => simp [containsList, hhead, htail]
  exact fun s => key s.length s (Nat.le_refl _)

theorem replaceList_id_of_no_occur (pat rep : List Char) :
    ∀ s, containsList pat s = false → replaceList pat rep s = s := by
  intro s
  induction s with
  | nil => intro _; rfl
  | cons c rest ih =>
    intro h
    have hparts : pat.isPrefixOf (c :: rest) = false ∧ containsList pat rest = false := by
      simpa only [containsList, Bool.or_eq_false_iff] using h
    rw [replaceList_cons_neg pat rep c rest hparts.1, ih hparts.2]

theorem digitChar_range (d : Nat) :
    (digitChar d).toNat = 42 ∨ (48 ≤ (digitChar d).toNat ∧ (digitChar d).toNat ≤ 57) := by
  match d with
  | 0 | 1 | 2 | 3 | 4 | 5 | 6 | 7 | 8 | 9 => right; exact (by decide)
  | n + 10 => left; rfl

theorem natDigitsAux_range (fuel : Nat) :
    ∀ (n : Nat) (c : Char), c ∈ natDigitsAux fuel n →
      c.toNat = 42 ∨ (48 ≤ c.toNat ∧ c.toNat ≤ 57) := by
  induction fuel with
  | zero =>
    intro n c hc
    simp only [natDigitsAux, List.mem_singleton] at hc
    subst hc
    exact digitChar_range n
  | succ fuel ih =>
    intro n c hc
    simp only [natDigitsAux] at hc
    by_cases h10 : n < 10
    · rw [if_pos h10] at hc
      simp only [List.mem_singleton] at hc
      subst hc
      exact digitChar_range n
    · rw [if_neg h10] at hc
      rcases List.mem_append.mp hc with hc | hc
      · exact ih (n / 10) c hc
      · simp only [List.mem_singleton] at hc
        subst hc
        exact digitChar_range (n % 10)

theorem natDigitsAux_ne_nil (fuel n : Nat) : natDigitsAux fuel n ≠ [] := by
  cases fuel with
  | zero => simp [natDigitsAux]
  | succ fuel =>
    simp only [natDigitsAux]
    by_cases h10 : n < 10
    · simp [h10]
    · simp [h10]

theorem pyStrInt_toList_ne_nil (i : Int) : (pyStrInt i).toList ≠ [] := by
  unfold pyStrInt
  by_cases h : i < 0
  · simp [h]
  · simp only [h, if_false]
    exact natDigitsAux_ne_nil _ _

theorem pyStrInt_char_range (i : Int) :
    ∀ c ∈ (pyStrInt i).toList,
      c.toNat = 45 ∨ c.toNat = 42 ∨ (48 ≤ c.toNat ∧ c.toNat ≤ 57) := by
  intro c hc
  unfold pyStrInt at hc
  by_cases h : i < 0
  · rw [if_pos h] at hc
    rcases List.mem_cons.mp hc with rfl | hc
    · left; rfl
    · right; exact natDigitsAux_range _ _ c hc
  · rw [if_neg h] at hc
    right; exact natDigitsAux_range _ _ c hc

theorem pyStrInt_nonneg_char_range (i : Int) (h0 : 0 ≤ i) :
    ∀ c ∈ (pyStrInt i).toList,
      c.toNat = 42 ∨ (48 ≤ c.toNat ∧ c.toNat ≤ 57) := by
  intro c hc
  unfold pyStrInt at hc
  rw [if_neg (by omega)] at hc
  exact natDigitsAux_range _ _ c hc

theorem token_chars_avoid : ∀ c ∈ "LATENCY_VALUE".toList,
    ¬ (c.toNat = 45 ∨ c.toNat = 42 ∨ (48 ≤ c.toNat ∧ c.toNat ≤ 57)) := by decide

theorem envdir_chars_avoid : ∀ c ∈ "EnvironmentFile=/etc/network-split.env".toList,
    ¬ (c.toNat = 42 ∨ (48 ≤ c.toNat ∧ c.toNat ≤ 57)) := by decide

/-- After the first substitution of `rdr.py` line 105, the placeholder token
`LATENCY_VALUE` no longer occurs — for every template text and every
(decimal-rendered) latency. -/
theorem pyReplace_token_no_occur (tpl : String) (i : Int) :
    containsStr "LATENCY_VALUE" (pyReplace tpl "LATENCY_VALUE" (pyStrInt i)) = false := by
  show containsList "LATENCY_VALUE".toList
    (replaceList "LATENCY_VALUE".toList (pyStrInt i).toList tpl.toList) = false
  apply replaceList_no_occur
  · decide
  · exact pyStrInt_toList_ne_nil i
  · intro c hc hmem
    exact token_chars_avoid c hmem (pyStrInt_char_range i c hc)

/-- For a nonnegative latency and a template not containing the
EnvironmentFile directive, the combined substitution of `rdr.py` lines
105-108 leaves neither the placeholder token nor the directive in the
result. -/
theorem substituteUnit_clean (tpl : String) (i : Int) (h0 : 0 ≤ i)
    (hdir : containsStr "EnvironmentFile=/etc/network-split.env" tpl = false) :
    containsStr "LATENCY_VALUE" (substituteUnit tpl i) = false ∧
      containsStr "EnvironmentFile=/etc/network-split.env" (substituteUnit tpl i) = false := by
  have hdisj : ∀ c ∈ (pyStrInt i).toList,
      c ∉ "EnvironmentFile=/etc/network-split.env".toList := by
    intro c hc hmem
    exact envdir_chars_avoid c hmem (pyStrInt_nonneg_char_range i h0 c hc)
  have h1 : containsList "EnvironmentFile=/etc/network-split.env".toList
      (replaceList "LATENCY_VALUE".toList (pyStrInt i).toList tpl.toList) = false := by
    apply replaceList_preserves_no_occur _ _ _ (by decide) (by decide)
      (pyStrInt_toList_ne_nil i) hdisj
    exact hdir
  have hid : replaceList "EnvironmentFile=/etc/network-split.env".toList "".toList
      (replaceList "LATENCY_VALUE".toList (pyStrInt i).toList tpl.toList) =
      replaceList "LATENCY_VALUE".toList (pyStrInt i).toList tpl.toList :=
    replaceList_id_of_no_occur _ _ _ h1
  constructor
  · show containsList "LATENCY_VALUE".toList
      (replaceList "EnvironmentFile=/etc/network-split.env".toList "".toList
        (replaceList "LATENCY_VALUE".toList (pyStrInt i).toList tpl.toList)) = false
    rw [hid]
    exact pyReplace_token_no_occur tpl i
  · show containsList "EnvironmentFile=/etc/network-split.env".toList
      (replaceList "EnvironmentFile=/etc/network-split.env".toList "".toList
        (replaceList "LATENCY_VALUE".toList (pyStrInt i).toList tpl.toList)) = false
    rw [hid]
    exact h1

theorem b64Val_b64Chr : ∀ i < 64, b64Val (b64Chr i) = i := by decide

theorem b64Chr_ne_pad : ∀ i < 64, b64Chr i ≠ '=' := by decide

/-- Base64 decoding inverts base64 encoding on byte lists. -/
theorem b64_roundtrip :
    ∀ bs : List Nat, (∀ x ∈ bs, x < 256) →
      b64DecodeChars (b64EncodeBytes bs) = bs := by
  have key : ∀ (n : Nat) (bs : List Nat), bs.length ≤ n → (∀ x ∈ bs, x < 256) →
      b64DecodeChars (b64EncodeBytes bs) = bs := by
    intro n
    induction n with
    | zero =>
      intro bs hlen _
      have : bs = [] := List.length_eq_zero.mp (Nat.le_zero.mp hlen)
      subst this
      rfl
    | succ n ih =>
      intro bs hlen hbound
      match bs with
      | [] => rfl
      | [a] =>
        have ha : a < 256 := hbound a (by simp)
        simp only [b64EncodeBytes, b64DecodeChars,
          b64Val_b64Chr (a / 4) (by omega), b64Val_b64Chr (a % 4 * 16) (by omega),
          if_true]
        simp only [List.cons.injEq, and_true]
        omega
      | [a, b] =>
        have ha : a < 256 := hbound a (by simp)
        have hb : b < 256 := hbound b (by simp)
        simp only [b64EncodeBytes, b64DecodeChars,
          if_neg (b64Chr_ne_pad (b % 16 * 4) (by omega)),
          b64Val_b64Chr (a / 4) (by omega),
          b64Val_b64Chr (a % 4 * 16 + b / 16) (by omega),
          b64Val_b64Chr (b % 16 * 4) (by omega), if_true]
        simp only [List.cons.injEq, and_true]
        exact ⟨by omega, by omega⟩
      | a :: b :: c :: rest =>
        have ha : a < 256 := hbound a (by simp)
        have hb : b < 256 := hbound b (by simp)
        have hc : c < 256 := hbound c (by simp)
        have hrest : b64DecodeChars (b64EncodeBytes rest) = rest := by
          apply ih
          · simp only [List.length_cons] at hlen; omega
          · intro x hx; exact hbound x (by simp [hx])
        simp only [b64EncodeBytes, b64DecodeChars,
          if_neg (b64Chr_ne_pad (b % 16 * 4 + c / 64) (by omega)),
          if_neg (b64Chr_ne_pad (c % 64) (by omega)),
          b64Val_b64Chr (a / 4) (by omega),
          b64Val_b64Chr (a % 4 * 16 + b / 16) (by omega),
          b64Val_b64Chr (b % 16 * 4 + c / 64) (by omega),
          b64Val_b64Chr (c % 64) (by omega)]
        rw [hrest]
        simp only [List.cons.injEq]
        refine ⟨by omega, by omega, by omega, trivial⟩
  exact fun bs => key bs.length bs (Nat.le_refl _)

theorem utf8Encode_bound (n : Nat) (h : n < 1114112) :
    ∀ x ∈ utf8Encode n, x < 256 := by
  intro x hx
  unfold utf8Encode at hx
  by_cases h1 : n < 128
  · rw [if_pos h1] at hx
    simp only [List.mem_singleton] at hx
    omega
  · rw [if_neg h1] at hx
    by_cases h2 : n < 2048
    · rw [if_pos h2] at hx
      rcases List.mem_cons.mp hx with rfl | hx
      · omega
      · simp only [List.mem_singleton] at hx; omega
    · rw [if_neg h2] at hx
      by_cases h3 : n < 65536
      · rw [if_pos h3] at hx
        rcases List.mem_cons.mp hx with rfl | hx
        · omega
        · rcases List.mem_cons.mp hx with rfl | hx
          · omega
          · simp only [List.mem_singleton] at hx; omega
      · rw [if_neg h3] at hx
        rcases List.mem_cons.mp hx with rfl | hx
        · omega
        · rcases List.mem_cons.mp hx with rfl | hx
          · omega
          · rcases List.mem_cons.mp hx with rfl | hx
            · omega
            · simp only [List.mem_singleton] at hx; omega

theorem char_toNat_bound (c : Char) : c.toNat < 1114112 := by
  rcases c.valid with h | ⟨_, h⟩
  · have h' : c.val.toNat < 55296 := h
    exact Nat.lt_trans h' (by norm_num)
  · exact h

theorem utf8Bytes_bound (s : String) : ∀ x ∈ utf8Bytes s, x < 256 := by
  intro x hx
  unfold utf8Bytes at hx
  rcases List.mem_flatMap.mp hx with ⟨c, -, hxc⟩
  exact utf8Encode_bound c.toNat (char_toNat_bound c) x hxc

/-- The base64 payload of an encoded string decodes to its UTF-8 bytes. -/
theorem b64_roundtrip_str (s : String) :
    b64DecodeChars (b64EncodeBytes (utf8Bytes s)) = utf8Bytes s :=
  b64_roundtrip (utf8Bytes s) (utf8Bytes_bound s)


theorem joinAll_append (l1 l2 : List String) :
    joinAll (l1 ++ l2) = joinAll l1 ++ joinAll l2 := by
  induction l1 with
  | nil => simp [joinAll, String.empty_append]
  | cons x xs ih => simp [joinAll, ih, String.append_assoc]


theorem inner_fold_eq (addrs : List NodeAddress) : ∀ acc : String,
    addrs.foldl
      (fun ip_addrs addr_d =>
        if containsStr addr_d.type "ExternalIP" then
          ip_addrs ++ "\x27" ++ addr_d.address ++ "\x27 "
        else ip_addrs)
      acc
    = acc ++ joinAll ((addrs.filter addrAccepted).map quotedAddr) := by
  induction addrs with
  | nil => intro acc; simp [joinAll, String.append_empty]
  | cons a rest ih =>
    intro acc
    by_cases hp : containsStr a.type "ExternalIP" = true
    · simp only [List.foldl_cons]
      rw [if_pos hp, ih]
      simp only [List.filter_cons, addrAccepted, hp, if_true, List.map_cons,
        joinAll, quotedAddr, String.append_assoc]
    · have hp' : containsStr a.type "ExternalIP" = false := by
        revert hp; cases containsStr a.type "ExternalIP" <;> simp
      simp only [List.foldl_cons]
      rw [if_neg (by simp [hp']), ih]
      simp only [List.filter_cons, addrAccepted, hp', Bool.false_eq_true,
        if_false]

theorem get_ip_address_eq_join (d : NodeDoc) :
    get_ip_address d =
      joinAll (((d.items.flatMap (fun i => i.addresses)).filter
        addrAccepted).map quotedAddr) := by
  show d.items.foldl _ "" = _
  have outer : ∀ (items : List NodeItem) (acc : String),
      items.foldl
        (fun ip_addrs i =>
          i.addresses.foldl
            (fun ip_addrs addr_d =>
              if containsStr addr_d.type "ExternalIP" then
                ip_addrs ++ "\x27" ++ addr_d.address ++ "\x27 "
              else ip_addrs)
            ip_addrs)
        acc
      = acc ++ joinAll (((items.flatMap (fun i => i.addresses)).filter
          addrAccepted).map quotedAddr) := by
    intro items
    induction items with
    | nil => intro acc; simp [joinAll, String.append_empty]
    | cons i rest ih =>
      intro acc
      simp only [List.foldl_cons]
      rw [inner_fold_eq i.addresses acc, ih]
      simp only [List.flatMap_cons, List.filter_append, List.map_append,
        joinAll_append, String.append_assoc]
  rw [outer d.items ""]
  rw [String.empty_append]

/-- On the float-exact range `|n| < 2^53`, the effective delay is plain
truncation of `n / 2` toward zero. -/
theorem effectiveDelay_eq_tdiv (n : Int) (h : n.natAbs < 2 ^ 53) :
    effectiveDelay n = Int.tdiv n 2 := by
  cases n with
  | ofNat m =>
    have hm : m < 2 ^ 53 := by simpa using h
    unfold effectiveDelay
    rw [if_neg (show ¬ Int.ofNat m < 0 from Int.not_lt.mpr (Int.natCast_nonneg m))]
    show Int.ofNat (pyHalfNat m) = _
    unfold pyHalfNat
    rw [if_pos hm]
    rfl
  | negSucc m =>
    have hm : m + 1 < 2 ^ 53 := by simpa using h
    unfold effectiveDelay
    rw [if_pos (Int.negSucc_lt_zero m)]
    show -(Int.ofNat (pyHalfNat (m + 1))) = _
    unfold pyHalfNat
    rw [if_pos hm]
    rfl

theorem effectiveDelay_nonneg (n : Int) (h0 : 0 ≤ n) : 0 ≤ effectiveDelay n := by
  unfold effectiveDelay
  rw [if_neg (by omega)]
  exact Int.natCast_nonneg _

/-- C1 counterexample: at `latencyMs = 2^53 + 3 = 9007199254740995` the
program computes `int(latencyMs / 2) = 4503599627370498` (the exact quotient
`...97.5` rounds ties-to-even up in the float division) while
`floor(latencyMs / 2) = 4503599627370497`, so the claim quantified over all
`latencyMs ≥ 0` is false. -/
theorem C1_effective_delay_counterexample :
    (0 : Int) ≤ 9007199254740995 ∧
      effectiveDelay 9007199254740995 = 4503599627370498 ∧
      Int.fdiv 9007199254740995 2 = 4503599627370497 ∧
      effectiveDelay 9007199254740995 ≠ Int.fdiv 9007199254740995 2 :=
  ⟨by decide, by decide, by decide, by decide⟩

/-- C1 (amended): for every integer `latencyMs` with
`0 ≤ latencyMs < 2^53` (the range on which the float division in
`int(latency / 2)` is exact), the effective delay computed by the assembler
(`create_latency_mc_dict`) equals `floor(latencyMs / 2)` (`Int.fdiv` is
flooring division); in particular `latencyMs = 100` yields 50 and
`latencyMs = 101` yields 50. -/
theorem C1_effective_delay_is_floor_half (n : Int) (h : 0 ≤ n)
    (h53 : n.natAbs < 2 ^ 53) :
    effectiveDelay n = Int.fdiv n 2 ∧
      effectiveDelay 100 = 50 ∧ effectiveDelay 101 = 50 := by
  refine ⟨?_, by decide, by decide⟩
  rw [effectiveDelay_eq_tdiv n h53]
  exact (Int.fdiv_eq_tdiv h (by decide)).symm

theorem C1_effective_delay_is_floor_half_witness :
    ((0 : Int) ≤ 100 ∧ (100 : Int).natAbs < 2 ^ 53) ∧
      (effectiveDelay 100 = Int.fdiv 100 2 ∧
        effectiveDelay 100 = 50 ∧ effectiveDelay 101 = 50) :=
  ⟨⟨by decide, by decide⟩,
   C1_effective_delay_is_floor_half 100 (by decide) (by decide)⟩

/-- C8: `create_latency_mc_dict` is deterministic — two invocations with
identical role, latency, peer-IP list and bundled unit-template text return
identical bundle documents (the embedding takes no other inputs: no clock,
no randomness). -/
theorem C8_assembler_deterministic (r1 r2 : String) (l1 l2 : Int)
    (i1 i2 t1 t2 : String)
    (hr : r1 = r2) (hl : l1 = l2) (hi : i1 = i2) (ht : t1 = t2) :
    create_latency_mc_dict r1 l1 i1 t1 = create_latency_mc_dict r2 l2 i2 t2 := by
  rw [hr, hl, hi, ht]

theorem C8_assembler_deterministic_witness :
    create_latency_mc_dict "worker" 40 c2IpList networkLatencyServiceTemplate =
      create_latency_mc_dict "worker" 40 c2IpList networkLatencyServiceTemplate :=
  C8_assembler_deterministic "worker" "worker" 40 40 c2IpList c2IpList
    networkLatencyServiceTemplate networkLatencyServiceTemplate rfl rfl rfl rfl

/-- C9: for `|latencyMs| < 2^53` (the range where Python's
`int(latency / 2)` is exact float arithmetic), `create_latency_mc_dict`
computes the effective delay as truncation of `latencyMs / 2` toward zero:
it agrees with floor on nonnegative input, is `floor + 1` on negative odd
input (so `-101 ↦ -50`), and negative latencies are accepted without any
validation error. -/
theorem C9_truncation_toward_zero (n : Int) (h53 : n.natAbs < 2 ^ 53) :
    (0 ≤ n → effectiveDelay n = Int.fdiv n 2) ∧
      (n < 0 → Odd n → effectiveDelay n = Int.fdiv n 2 + 1) ∧
      effectiveDelay (-101) = -50 ∧
      (∀ role ips tpl : String,
        exceptOk (create_latency_mc_dict role n ips tpl) = true) := by
  refine ⟨?_, ?_, by decide, ?_⟩
  · intro h0
    rw [effectiveDelay_eq_tdiv n h53]
    exact (Int.fdiv_eq_tdiv h0 (by decide)).symm
  · intro hneg hodd
    rw [effectiveDelay_eq_tdiv n h53]
    have h1 : Int.tdiv n 2 = -(Int.tdiv (-n) 2) := by
      rw [← Int.neg_tdiv, Int.neg_neg]
    rw [h1, Int.tdiv_eq_ediv (by omega) (by decide), Int.fdiv_eq_ediv n (by decide)]
    obtain ⟨k, hk⟩ := hodd
    omega
  · intro role ips tpl
    rfl

theorem C9_truncation_toward_zero_witness :
    ((-101 : Int)).natAbs < 2 ^ 53 ∧
      effectiveDelay (-101) = Int.fdiv (-101) 2 + 1 ∧
      exceptOk (create_latency_mc_dict "worker" (-101) "i" "t") = true :=
  ⟨by norm_num,
   (C9_truncation_toward_zero (-101) (by norm_num)).2.1 (by norm_num)
     ⟨-51, by norm_num⟩,
   (C9_truncation_toward_zero (-101) (by norm_num)).2.2.2 "worker" "i" "t"⟩

/-- C10: `get_ip_address` includes a node address exactly when the address's
type string is a contiguous substring of `"ExternalIP"` (the Python
membership test is against the string `"ExternalIP"`, not a one-element
tuple) — so `"IP"`, `"External"` and `""` are included while
`"InternalIP"` is excluded — and the result is a single string of
single-quoted addresses each followed by one space. -/
theorem C10_substring_membership_filter :
    (∀ d : NodeDoc, get_ip_address d =
      joinAll (((d.items.flatMap (fun i => i.addresses)).filter
        (fun a => containsStr a.type "ExternalIP")).map
        (fun a => "\x27" ++ a.address ++ "\x27 "))) ∧
    containsStr "IP" "ExternalIP" = true ∧
    containsStr "External" "ExternalIP" = true ∧
    containsStr "" "ExternalIP" = true ∧
    containsStr "InternalIP" "ExternalIP" = false ∧
    get_ip_address ⟨[⟨[⟨"IP", "1.1.1.1"⟩, ⟨"External", "2.2.2.2"⟩,
        ⟨"", "3.3.3.3"⟩, ⟨"InternalIP", "4.4.4.4"⟩,
        ⟨"ExternalIP", "5.5.5.5"⟩]⟩]⟩ =
      "\x271.1.1.1\x27 \x272.2.2.2\x27 \x273.3.3.3\x27 \x275.5.5.5\x27 " := by
  refine ⟨?_, by decide, by decide, by decide, by decide, by decide⟩
  intro d
  exact get_ip_address_eq_join d

/-- C3: `create_file_dict` fails exactly when, in this order: (a) the
basename is empty (regardless of the other arguments), (b) the target
directory is not an absolute path, (c) the normalized target directory is
prefixed by neither `/etc` nor `/var`; in particular `target_dir="/tmp"`
always fails while `/etc/foo` and `/var/lib` always succeed for non-empty
basenames. -/
theorem C3_validation_order (b c td : String) :
    (b = "" → create_file_dict b c td = Except.error "basename should not be empty") ∧
    (b ≠ "" → startsWithS "/" td = false →
      create_file_dict b c td = Except.error
        ("target_dir \x27" ++ td ++ "\x27 shouldn\x27t be relative, use abs. path")) ∧
    (b ≠ "" → startsWithS "/" td = true →
      (startsWithS "/etc" (normpath td) || startsWithS "/var" (normpath td)) = false →
      create_file_dict b c td = Except.error
        ("target_dir \x27" ++ normpath td ++ "\x27 should not be outside of /etc or /var")) ∧
    (exceptOk (create_file_dict b c td) = true ↔
      (b ≠ "" ∧ startsWithS "/" td = true ∧
        (startsWithS "/etc" (normpath td) || startsWithS "/var" (normpath td)) = true)) ∧
    (b ≠ "" →
      exceptOk (create_file_dict b c "/tmp") = false ∧
      exceptOk (create_file_dict b c "/etc/foo") = true ∧
      exceptOk (create_file_dict b c "/var/lib") = true) := by
  refine ⟨?_, ?_, ?_, ?_, ?_⟩
  · intro hb
    subst hb
    rfl
  · intro hb h2
    unfold create_file_dict
    rw [if_neg hb, if_pos (by simp [h2])]
  · intro hb h2 h3
    unfold create_file_dict
    rw [if_neg hb, if_neg (by simp [h2])]
    simp only []
    rw [if_pos (by simp [h3])]
  · by_cases hb : b = ""
    · subst hb
      simp [create_file_dict, exceptOk]
    · by_cases h2 : startsWithS "/" td = true
      · by_cases h3 : (startsWithS "/etc" (normpath td) ||
            startsWithS "/var" (normpath td)) = true
        · simp [create_file_dict, exceptOk, hb, h2, h3]
        · simp [create_file_dict, exceptOk, hb, h2, h3]
      · simp [create_file_dict, exceptOk, hb, h2]
  · intro hb
    have e1 : startsWithS "/" "/tmp" = true := by decide
    have e2 : (startsWithS "/etc" (normpath "/tmp") ||
        startsWithS "/var" (normpath "/tmp")) = false := by decide
    have e3 : startsWithS "/" "/etc/foo" = true := by decide
    have e4 : (startsWithS "/etc" (normpath "/etc/foo") ||
        startsWithS "/var" (normpath "/etc/foo")) = true := by decide
    have e5 : startsWithS "/" "/var/lib" = true := by decide
    have e6 : (startsWithS "/etc" (normpath "/var/lib") ||
        startsWithS "/var" (normpath "/var/lib")) = true := by decide
    refine ⟨?_, ?_, ?_⟩
    · unfold create_file_dict
      rw [if_neg hb, if_neg (by simp [e1])]
      simp only []
      rw [if_pos (by simp [e2])]
      rfl
    · unfold create_file_dict
      rw [if_neg hb, if_neg (by simp [e3])]
      simp only []
      rw [if_neg (by simp [e4])]
      rfl
    · unfold create_file_dict
      rw [if_neg hb, if_neg (by simp [e5])]
      simp only []
      rw [if_neg (by simp [e6])]
      rfl

theorem C3_validation_order_witness :
    create_file_dict "" "x" "/tmp" = Except.error "basename should not be empty" ∧
    exceptOk (create_file_dict "a" "x" "/tmp") = false ∧
    exceptOk (create_file_dict "a" "x" "/etc/foo") = true ∧
    exceptOk (create_file_dict "a" "x" "/var/lib") = true :=
  ⟨(C3_validation_order "" "x" "/tmp").1 rfl,
   ((C3_validation_order "a" "x" "/tmp").2.2.2.2 (by decide)).1,
   ((C3_validation_order "a" "x" "/tmp").2.2.2.2 (by decide)).2.1,
   ((C3_validation_order "a" "x" "/tmp").2.2.2.2 (by decide)).2.2⟩

/-- C4 counterexample: `create_file_dict` accepts a basename that is itself
an absolute path; `basename="/tmp/x"`, `targetDir="/etc"` succeeds (the
claim says such a construction must fail) and the returned entry's path
normalizes to `/tmp/x`, outside both permitted roots. -/
theorem C4_path_in_roots_counterexample :
    create_file_dict "/tmp/x" "c" "/etc" =
      Except.ok
        { path := "/tmp/x"
          source := "data:text/plain;charset=utf-8;base64,Yw=="
          mode := 292
          user_name := "root"
          group_name := "root" } ∧
    specInsideRoots (normpath "/tmp/x") = false :=
  ⟨rfl, rfl⟩

/-- C4 (amended): every `FileDict` that `create_file_dict` successfully
returns was built from a `target_dir` whose normalization has string prefix
`/etc` or `/var`, and its path equals `join(normpath(target_dir), basename)`;
the basename is not inspected beyond non-emptiness, so the path itself can
still normalize outside the two roots. -/
theorem C4_target_dir_prefix_guarantee (b c td : String) (e : FileDict)
    (h : create_file_dict b c td = Except.ok e) :
    (startsWithS "/etc" (normpath td) || startsWithS "/var" (normpath td)) = true ∧
      e.path = pyJoin (normpath td) b := by
  unfold create_file_dict at h
  split at h
  · exact absurd h (by simp)
  · split at h
    · exact absurd h (by simp)
    · simp only [] at h
      split at h
      · exact absurd h (by simp)
      · rename_i hcond
        injection h with he
        subst he
        constructor
        · revert hcond
          cases startsWithS "/etc" (normpath td) || startsWithS "/var" (normpath td) <;>
            simp
        · rfl

theorem C4_target_dir_prefix_guarantee_witness :
    (startsWithS "/etc" (normpath "/etc") || startsWithS "/var" (normpath "/etc")) = true ∧
      ({ path := "/etc/a"
         source := "data:text/plain;charset=utf-8;base64,Yw=="
         mode := 292
         user_name := "root"
         group_name := "root" } : FileDict).path =
        pyJoin (normpath "/etc") "a" :=
  C4_target_dir_prefix_guarantee "a" "c" "/etc" _ rfl

/-- C5 counterexample: with `basename="."`, `targetDir="/etc"` the returned
path is `/etc/.` whereas `normalize(join(targetDir, basename))` is `/etc`:
the code normalizes the target directory before joining, not the joined
path. -/
theorem C5_path_normalize_counterexample :
    create_file_dict "." "c" "/etc" =
      Except.ok
        { path := "/etc/."
          source := "data:text/plain;charset=utf-8;base64,Yw=="
          mode := 292
          user_name := "root"
          group_name := "root" } ∧
    normpath (pyJoin "/etc" ".") = "/etc" ∧
    ("/etc/." : String) ≠ "/etc" :=
  ⟨rfl, rfl, by decide⟩

/-- C5 (amended): for every accepted input, the path of the returned
`FileDict` equals `join(normalize(targetDir), basename)` — normalization is
applied to the target directory before joining, not to the joined path. -/
theorem C5_path_equation (b c td : String) (e : FileDict)
    (h : create_file_dict b c td = Except.ok e) :
    e.path = pyJoin (normpath td) b := by
  unfold create_file_dict at h
  split at h
  · exact absurd h (by simp)
  · split at h
    · exact absurd h (by simp)
    · simp only [] at h
      split at h
      · exact absurd h (by simp)
      · injection h with he
        subst he
        rfl

theorem C5_path_equation_witness :
    ({ path := "/etc/a"
       source := "data:text/plain;charset=utf-8;base64,Yw=="
       mode := 292
       user_name := "root"
       group_name := "root" } : FileDict).path =
      pyJoin (normpath "/etc") "a" :=
  C5_path_equation "a" "c" "/etc" _ rfl

/-- C6: for every content string accepted by `create_file_dict` (including
multi-line text and shell metacharacters — the content is universally
quantified), the returned entry's `contents.source` is the data-URI prefix
followed by a base64 payload, and decoding that payload yields byte-for-byte
the UTF-8 encoding of the original content. -/
theorem C6_base64_roundtrip (b content td : String) (e : FileDict)
    (h : create_file_dict b content td = Except.ok e) :
    e.source = dataUriHead ++ b64EncodeStr content ∧
      b64DecodeChars (b64EncodeBytes (utf8Bytes content)) = utf8Bytes content := by
  refine ⟨?_, b64_roundtrip_str content⟩
  unfold create_file_dict at h
  split at h
  · exact absurd h (by simp)
  · split at h
    · exact absurd h (by simp)
    · simp only [] at h
      split at h
      · exact absurd h (by simp)
      · injection h with he
        subst he
        rfl

theorem C6_base64_roundtrip_witness :
    ({ path := "/etc/f"
       source := "data:text/plain;charset=utf-8;base64,YWIKJA=="
       mode := 292
       user_name := "root"
       group_name := "root" } : FileDict).source =
        dataUriHead ++ b64EncodeStr "ab\n$" ∧
      b64DecodeChars (b64EncodeBytes (utf8Bytes "ab\n$")) = utf8Bytes "ab\n$" :=
  C6_base64_roundtrip "f" "ab\n$" "/etc" _ rfl

/-- C2: `create_latency_mc_dict("worker", 40, ...)` with peers 10.0.0.1 and
10.0.0.2 yields a bundle named `99-worker-network-latency` with exactly two
file entries (module-preload file first, shaping script second) and exactly
one unit entry; the script text does not contain the literal substring
`delay "20"ms` while the unit contents contain `20`, and the script embeds
both peers as quoted literals.  (The service-unit template is the
spec-modelled `networkLatencyServiceTemplate`.) -/
theorem C2_representative_bundle :
    c2Bundle.map (fun m => m.name) = Except.ok "99-worker-network-latency" ∧
    c2Bundle.map (fun m => m.files.length) = Except.ok 2 ∧
    c2Bundle.map (fun m => m.units.length) = Except.ok 1 ∧
    c2Bundle.map (fun m => m.files.map (fun f => f.path)) =
      Except.ok ["/etc/modules-load.d/sch_netem.conf", "/etc/network-latency.sh"] ∧
    c2Bundle.map (fun m => m.files.map (fun f => f.source)) =
      Except.ok [dataUriHead ++ b64EncodeStr "sch_netem",
        dataUriHead ++ b64EncodeStr (networkLatencyScript c2IpList)] ∧
    containsStr "delay \"20\"ms" (networkLatencyScript c2IpList) = false ∧
    c2Bundle.map (fun m => m.units.map (fun u => containsStr "20" u.contents)) =
      Except.ok [true] ∧
    containsStr "\x2710.0.0.1\x27" (networkLatencyScript c2IpList) = true ∧
    containsStr "\x2710.0.0.2\x27" (networkLatencyScript c2IpList) = true := by
  refine ⟨rfl, rfl, rfl, rfl, rfl, by decide, rfl, by decide, by decide⟩

/-- C7 counterexample: for the template `c7BadTemplate` (= `"LATENCY"` ++
directive ++ `"_VALUE"`), the unit entry attached by
`create_latency_mc_dict` still contains the placeholder token
`LATENCY_VALUE`: removing the directive splices the surrounding text into a
new occurrence, so the claim's "for every template text" fails. -/
theorem C7_substitution_counterexample :
    (create_latency_mc_dict "worker" 40 "ips" c7BadTemplate).map
      (fun m => m.units.map (fun u => containsStr "LATENCY_VALUE" u.contents)) =
      Except.ok [true] := rfl

/-- C7 (amended): in the unit entry attached by `create_latency_mc_dict`,
(1) for every template text and every latency, the placeholder token does
not survive the placeholder substitution itself; (2) for every template text
that does not contain the environment-file directive (and nonnegative
latency), neither the placeholder token nor the directive occurs in the
final unit contents; (3) the same holds for the bundled template at the
representative invocation.  For arbitrary templates containing the
directive, its removal can re-form occurrences of either string, so the
original universal claim fails (see the counterexample). -/
theorem C7_substitution_guarantees :
    (∀ (tpl : String) (i : Int),
      containsStr "LATENCY_VALUE"
        (pyReplace tpl "LATENCY_VALUE" (pyStrInt i)) = false) ∧
    (∀ (tpl role ips : String) (n : Int) (m : MachineConfig),
      0 ≤ n →
      containsStr "EnvironmentFile=/etc/network-split.env" tpl = false →
      create_latency_mc_dict role n ips tpl = Except.ok m →
      m.units.all (fun u => !(containsStr "LATENCY_VALUE" u.contents) &&
        !(containsStr "EnvironmentFile=/etc/network-split.env" u.contents)) = true) ∧
    (create_latency_mc_dict "worker" 40 "ips2" networkLatencyServiceTemplate).map
      (fun m => m.units.map (fun u =>
        (containsStr "LATENCY_VALUE" u.contents,
         containsStr "EnvironmentFile=/etc/network-split.env" u.contents))) =
      Except.ok [(false, false)] := by
  refine ⟨?_, ?_, rfl⟩
  · intro tpl i
    exact pyReplace_token_no_occur tpl i
  · intro tpl role ips n m h0 hdir h
    have hunits : m.units =
        [{ name := "network-latency.service"
           enabled := true
           contents := substituteUnit tpl (effectiveDelay n) }] := by
      have hcan : (create_latency_mc_dict role n ips tpl).map (fun x => x.units) =
          Except.ok
            [{ name := "network-latency.service"
               enabled := true
               contents := substituteUnit tpl (effectiveDelay n) }] := rfl
      rw [h] at hcan
      simpa [Except.map] using hcan
    rw [hunits]
    have hdelay : 0 ≤ effectiveDelay n := effectiveDelay_nonneg n h0
    obtain ⟨h1, h2⟩ := substituteUnit_clean tpl (effectiveDelay n) hdelay hdir
    simp [List.all_cons, h1, h2]

theorem C7_substitution_guarantees_witness :
    (create_latency_mc_dict "worker" 40 "i" "ExecStart=x LATENCY_VALUE").map
      (fun m => m.units.all (fun u => !(containsStr "LATENCY_VALUE" u.contents) &&
        !(containsStr "EnvironmentFile=/etc/network-split.env" u.contents))) =
      Except.ok true := by
  obtain ⟨m, hm⟩ : ∃ m,
      create_latency_mc_dict "worker" 40 "i" "ExecStart=x LATENCY_VALUE" =
        Except.ok m := ⟨_, rfl⟩
  rw [hm]
  have hall := C7_substitution_guarantees.2.1 "ExecStart=x LATENCY_VALUE"
    "worker" "i" 40 m (by decide) (by decide) hm
  simp only [Except.map]
  rw [hall]
